import Mathlib

/-
Verification of the `HitsCountPatch` metric accumulator from
`examples/19-customize-patch.py` of the hitlic/loops repository.

The example defines a custom "Patch": an accumulator built once per batch from
prediction scores and true labels, counting Hit-at-n for a tuple of cutoffs,
merged across batches by summing the per-cutoff counters.  The embedding below
follows the Python source line by line; library functions imported from outside
the repository snapshot (`sum_dicts`, the `ValuePatch` operand) are modelled
from the specification and say so in their doc comments, and `np.in1d` is
modelled by its documented numpy semantics.
-/

namespace Loops

/-- Key label for cutoff `n`, the Python f-string producing "@1", "@2", ... -/
def atKey (n : Nat) : String := "@" ++ toString n

/-- Stable insertion of one element into a list: the new element is placed after
every existing element `y` with `le y x`. -/
def insertLe (le : α → α → Bool) (x : α) : List α → List α
  | [] => [x]
  | y :: ys => if le y x then y :: insertLe le x ys else x :: y :: ys

/-- Stable sort by repeated insertion, processing elements in original order. -/
def isortBy (le : α → α → Bool) (l : List α) : List α :=
  l.foldl (fun acc x => insertLe le x acc) []

/-- Embedding of one row of `preds.sort(dim=1, descending=True)`, restricted to
the returned index tensor: the column positions ordered by descending score,
ties kept in index order. -/
def argsortDesc (row : List Int) : List Nat :=
  (isortBy (fun y x => decide (x.2 ≤ y.2)) row.enum).map Prod.fst

/-- Embedding of `np.in1d(ar1, ar2, assume_unique=True)` by its documented
numpy semantics: a boolean list whose entry `i` is true exactly when `ar1[i]`
occurs somewhere in the flattened `ar2` (the flag is a performance hint). -/
def in1d (ar1 ar2 : List Nat) : List Bool := ar1.map (fun x => ar2.contains x)

/-- The index matrix `ids_sorted` of `HitsCountPatch.__init__`: the descending
argsort of every row of the prediction scores. -/
def idsSorted (preds : List (List Int)) : List (List Nat) := preds.map argsortDesc

/-- The flattened view of `ids_sorted[:, :n]`: `np.in1d` ravels its second
argument, pooling the top-`n` columns of all rows into one list. -/
def idsTopFlat (preds : List (List Int)) (n : Nat) : List Nat :=
  ((idsSorted preds).map (fun r => r.take n)).flatten

/-- One loop iteration's `hit.sum()`: how many entries of `targets` the call
`np.in1d(targets, ids_n, assume_unique=True)` marks as present in the pooled
top-`n` ids. -/
def hitSum (preds : List (List Int)) (targets : List Nat) (n : Nat) : Nat :=
  (in1d targets (idsTopFlat preds n)).countP (fun b => b)

/-- Keys of a Python dict modelled as an association list in insertion order. -/
def keys (d : List (String × Nat)) : List String := d.map Prod.fst

/-- Dict read defaulting to 0 for an absent key; the first matching entry wins,
as in a Python dict where keys are unique. -/
def lookupD (d : List (String × Nat)) (k : String) : Nat := (List.lookup k d).getD 0

/-- The dict comprehension initialising every key to 0; duplicate keys collapse
onto their first occurrence, as in Python. -/
def dictInit (ks : List String) : List (String × Nat) :=
  ks.foldl (fun d k => if d.any (fun p => p.1 == k) then d else d ++ [(k, 0)]) []

/-- In-place update adding `v` to the entry of key `k` (present by
construction). -/
def dictUpdateAdd (d : List (String × Nat)) (k : String) (v : Nat) : List (String × Nat) :=
  d.map (fun p => if p.1 == k then (p.1, p.2 + v) else p)

/-- Modelled from the spec: `sum_dicts` is imported from the deepepochs library,
whose source is not under src/.  The spec describes the merge as "element-wise
integer sum over matching cutoff labels across two such mappings"; a key present
in only one operand keeps its value. -/
def sum_dicts (d1 d2 : List (String × Nat)) : List (String × Nat) :=
  d1.map (fun p => (p.1, p.2 + lookupD d2 p.1)) ++
    d2.filter (fun p => (List.lookup p.1 d1).isNone)

/-- State of a `HitsCountPatch` object after construction: the cutoff tuple
`at`, the counter dict `hits_count`, and the inherited `name`. -/
structure HitsCountPatch where
  at_ : List Nat
  hits_count : List (String × Nat)
  name : Option String
  deriving DecidableEq

/-- Body of `HitsCountPatch.__init__`: initialise every cutoff's counter to 0,
then add `hit.sum()` for each cutoff `n` of `at` in order. -/
def hitsCountCompute (preds : List (List Int)) (targets : List Nat) (a : List Nat) :
    List (String × Nat) :=
  a.foldl (fun d n => dictUpdateAdd d (atKey n) (hitSum preds targets n))
    (dictInit (a.map atKey))

/-- The constructor `HitsCountPatch.__init__(preds, targets, at, name)`. -/
def HitsCountPatch.init (preds : List (List Int)) (targets : List Nat) (a : List Nat)
    (name : Option String) : HitsCountPatch :=
  ⟨a, hitsCountCompute preds targets a, name⟩

/-- The method `HitsCountPatch.forward`: returns `self.hits_count`. -/
def HitsCountPatch.forward (self : HitsCountPatch) : List (String × Nat) :=
  self.hits_count

/-- The method `HitsCountPatch.add` applied to another hits patch: overwrite the
receiver's `hits_count` with `sum_dicts` of both operands' dicts and return the
receiver. -/
def HitsCountPatch.add (self obj : HitsCountPatch) : HitsCountPatch :=
  { self with hits_count := sum_dicts self.hits_count obj.hits_count }

/-- Heap-effect view of `forward()`: the returned value paired with the
post-call state of the receiver (the method reads `self.hits_count` and writes
nothing). -/
def HitsCountPatch.forwardS (self : HitsCountPatch) : List (String × Nat) × HitsCountPatch :=
  (self.hits_count, self)

/-- Heap-effect view of `add`: the triple of the returned object, the
receiver's post-call state and the operand's post-call state.  The Python method
mutates `self.hits_count` and then returns `self`, so the returned object and
the receiver's post-state are one and the same object, and the operand is
untouched. -/
def HitsCountPatch.addS (self obj : HitsCountPatch) :
    HitsCountPatch × HitsCountPatch × HitsCountPatch :=
  (self.add obj, self.add obj, obj)

/-- Errors a call can surface in this model.  `attributeError` is Python's
generic failure of the attribute lookup `obj.hits_count`; the other two are the
dedicated validation errors named by the spec, which no code under src/
raises. -/
inductive PyError where
  | attributeError
  | invalidMergeError
  | invalidInputError
  deriving DecidableEq

/-- An arbitrary merge operand as `HitsCountPatch.add` observes it: the method
touches nothing of the operand but the result of the attribute lookup
`obj.hits_count`, present or absent. -/
structure PatchObj where
  kind : String
  hits_count? : Option (List (String × Nat))
  deriving DecidableEq

/-- Modelled from the spec: a `ValuePatch` operand.  deepepochs' `ValuePatch`
(the mean-like accumulator of the spec) is not under src/; all the merge path
observes is that it carries no `hits_count` attribute. -/
def valuePatchObj : PatchObj := ⟨"ValuePatch", none⟩

/-- The method `HitsCountPatch.add` on an arbitrary operand: evaluating the
argument `obj.hits_count` raises `AttributeError` when the operand has no such
attribute; otherwise the dicts are summed without any kind validation. -/
def HitsCountPatch.addObj (self : HitsCountPatch) (obj : PatchObj) :
    Except PyError HitsCountPatch :=
  match obj.hits_count? with
  | none => .error .attributeError
  | some d => .ok { self with hits_count := sum_dicts self.hits_count d }

/-- The constructor as a fallible computation.  None of its operations
(`sort`, slicing, `np.in1d`, `sum`, dict updates) raises for mismatched batch
sizes, so construction always succeeds. -/
def HitsCountPatch.initE (preds : List (List Int)) (targets : List Nat) (a : List Nat)
    (name : Option String) : Except PyError HitsCountPatch :=
  .ok (HitsCountPatch.init preds targets a name)

/-- Modelled from the spec: the per-sample hit-at-n count, i.e. for each cutoff
`n` the number of samples whose own true label is among that sample's top-`n`
predicted labels, keyed like the code's dict. -/
def specHitsCount (preds : List (List Int)) (targets : List Nat) (a : List Nat) :
    List (String × Nat) :=
  a.map (fun n =>
    (atKey n, ((idsSorted preds).zip targets).countP (fun pr => (pr.1.take n).contains pr.2)))

/-- Modelled from the spec: the 1-indexed rank position of each sample's true
label in the descending-sorted prediction scores. -/
def rankPositions (preds : List (List Int)) (targets : List Nat) : List Nat :=
  ((idsSorted preds).zip targets).map (fun pr => pr.1.indexOf pr.2 + 1)

/-- A four-sample batch whose true labels sit at rank positions 1, 3, 1, 2 of
the descending-sorted scores. -/
def preds4 : List (List Int) := [[9, 2, 1, 0], [5, 1, 4, 0], [0, 1, 9, 2], [3, 9, 0, 4]]

/-- True labels of the four-sample batch. -/
def targets4 : List Nat := [0, 1, 2, 3]

/-- C1.  The claim is right and the code is wrong.  On a batch of 4 samples
whose true labels sit at rank positions 1, 3, 1, 2, the per-sample hit counts
demanded by the claim (and by the class's own docstring, which says the patch
counts Hit-at-n) are "@1" = 2, "@2" = 3; the constructor instead returns
"@1" = 3, "@2" = 4, because `np.in1d` ravels the 2-D top-n index array and so
tests every sample's label against the pooled top-n ids of all samples. -/
theorem c1_per_sample_hits_code_bug :
    rankPositions preds4 targets4 = [1, 3, 1, 2] ∧
    (HitsCountPatch.init preds4 targets4 [1, 2] none).forward = [("@1", 3), ("@2", 4)] ∧
    specHitsCount preds4 targets4 [1, 2] = [("@1", 2), ("@2", 3)] := by
  decide

/-- C2.  The claim is right and the code is wrong.  For the two-sample batch
with scores [[0,1],[1,0]] and labels [0,1] at cutoff 1 and split point k = 1,
the accumulator built over the whole batch reports "@1" = 2 (each label lies in
the other sample's top-1, and the pooled `np.in1d` test counts that), while the
merge of the two single-sample accumulators reports "@1" = 0; the claim says the
two are always equal. -/
theorem c2_split_merge_code_bug :
    (HitsCountPatch.init [[0, 1], [1, 0]] [0, 1] [1] none).forward = [("@1", 2)] ∧
    ((HitsCountPatch.init [[0, 1]] [0] [1] none).add
      (HitsCountPatch.init [[1, 0]] [1] [1] none)).forward = [("@1", 0)] := by
  decide

/-- C3 (counterexample).  Merging a `HitsCountPatch` with a `ValuePatch` operand
fails with Python's generic `AttributeError` from the lookup `obj.hits_count`,
which is not the dedicated kind-mismatch error the claim demands. -/
theorem c3_counterexample :
    (HitsCountPatch.init [[1, 0]] [0] [1] none).addObj valuePatchObj
      = Except.error PyError.attributeError ∧
    PyError.attributeError ≠ PyError.invalidMergeError := by
  exact ⟨rfl, by decide⟩

/-- C3 (amended).  Merging with any operand lacking a `hits_count` attribute
fails with the generic `AttributeError` — never a silently coerced or merged
value, but not a dedicated kind-mismatch error either. -/
theorem c3_attribute_error (h : HitsCountPatch) (obj : PatchObj)
    (hno : obj.hits_count? = none) :
    h.addObj obj = Except.error PyError.attributeError := by
  simp [HitsCountPatch.addObj, hno]

/-- C3 (witness for the amended theorem). -/
theorem c3_attribute_error_witness :
    valuePatchObj.hits_count? = none ∧
    (HitsCountPatch.init [[1, 0]] [0] [1] none).addObj valuePatchObj
      = Except.error PyError.attributeError :=
  ⟨rfl, c3_attribute_error (HitsCountPatch.init [[1, 0]] [0] [1] none) valuePatchObj rfl⟩

/-- C6 (counterexample).  Constructing from 2 rows of predictions but a single
target completes without any error: `initE` returns `ok`, and the resulting
accumulator even carries a definite count. -/
theorem c6_counterexample :
    HitsCountPatch.initE [[1, 0], [0, 1]] [0] [1] none
      = Except.ok (HitsCountPatch.init [[1, 0], [0, 1]] [0] [1] none) ∧
    (HitsCountPatch.init [[1, 0], [0, 1]] [0] [1] none).forward = [("@1", 1)] := by
  exact ⟨rfl, by decide⟩

/-- C7.  `forward()` takes no quantity besides the receiver, returns the current
counter mapping `hits_count`, and is a pure read: iterating the call any number
of times leaves the receiver (all of `at`, `hits_count`, `name`) unchanged. -/
theorem c7_forward_pure (h : HitsCountPatch) (k : Nat) :
    (HitsCountPatch.forwardS h).1 = h.hits_count ∧
    (HitsCountPatch.forwardS h).2 = h ∧
    (fun s => (HitsCountPatch.forwardS s).2)^[k] h = h :=
  ⟨rfl, rfl, Function.iterate_fixed rfl k⟩

/-- C7 (witness). -/
theorem c7_forward_pure_witness :
    (HitsCountPatch.forwardS (HitsCountPatch.init preds4 targets4 [1, 2] none)).1
      = (HitsCountPatch.init preds4 targets4 [1, 2] none).hits_count ∧
    (HitsCountPatch.forwardS (HitsCountPatch.init preds4 targets4 [1, 2] none)).2
      = HitsCountPatch.init preds4 targets4 [1, 2] none ∧
    (fun s => (HitsCountPatch.forwardS s).2)^[3]
        (HitsCountPatch.init preds4 targets4 [1, 2] none)
      = HitsCountPatch.init preds4 targets4 [1, 2] none :=
  c7_forward_pure (HitsCountPatch.init preds4 targets4 [1, 2] none) 3

/-- C8.  The merge result is determined solely by the two operands' `hits_count`
mappings: two `add` calls whose receivers carry the same `hits_count` and whose
operands carry the same `hits_count` return the same merged value, whatever
cutoffs, names — and hence whatever raw predictions and targets — lie behind
them. -/
theorem c8_merge_only_uses_counts (hc1 hc2 : List (String × Nat))
    (a1 a2 a1' a2' : List Nat) (n1 n2 n1' n2' : Option String) :
    (HitsCountPatch.add ⟨a1, hc1, n1⟩ ⟨a2, hc2, n2⟩).forward
      = (HitsCountPatch.add ⟨a1', hc1, n1'⟩ ⟨a2', hc2, n2'⟩).forward :=
  rfl

/-- C9.  `add` mutates its receiver in place and aliases its result: the
returned object is the receiver's post-call state itself, that state's
`hits_count` has been overwritten with the element-wise sum of the two operands'
mappings while `at` and `name` are kept, and the operand is left unchanged. -/
theorem c9_add_in_place (A B : HitsCountPatch) :
    (A.addS B).1 = (A.addS B).2.1 ∧
    (A.addS B).2.1.hits_count = sum_dicts A.hits_count B.hits_count ∧
    (A.addS B).2.1.at_ = A.at_ ∧
    (A.addS B).2.1.name = A.name ∧
    (A.addS B).2.2 = B :=
  ⟨rfl, rfl, rfl, rfl, rfl⟩

/-- C9 (witness). -/
theorem c9_add_in_place_witness :
    ((HitsCountPatch.init preds4 targets4 [1, 2] none).addS
        (HitsCountPatch.init [[0, 1]] [0] [1, 2] none)).1
      = ((HitsCountPatch.init preds4 targets4 [1, 2] none).addS
        (HitsCountPatch.init [[0, 1]] [0] [1, 2] none)).2.1 ∧
    ((HitsCountPatch.init preds4 targets4 [1, 2] none).addS
        (HitsCountPatch.init [[0, 1]] [0] [1, 2] none)).2.1.hits_count
      = sum_dicts (HitsCountPatch.init preds4 targets4 [1, 2] none).hits_count
        (HitsCountPatch.init [[0, 1]] [0] [1, 2] none).hits_count ∧
    ((HitsCountPatch.init preds4 targets4 [1, 2] none).addS
        (HitsCountPatch.init [[0, 1]] [0] [1, 2] none)).2.1.at_
      = (HitsCountPatch.init preds4 targets4 [1, 2] none).at_ ∧
    ((HitsCountPatch.init preds4 targets4 [1, 2] none).addS
        (HitsCountPatch.init [[0, 1]] [0] [1, 2] none)).2.1.name
      = (HitsCountPatch.init preds4 targets4 [1, 2] none).name ∧
    ((HitsCountPatch.init preds4 targets4 [1, 2] none).addS
        (HitsCountPatch.init [[0, 1]] [0] [1, 2] none)).2.2
      = HitsCountPatch.init [[0, 1]] [0] [1, 2] none :=
  c9_add_in_place (HitsCountPatch.init preds4 targets4 [1, 2] none)
    (HitsCountPatch.init [[0, 1]] [0] [1, 2] none)

/-! Association-list toolkit: how `dictInit`, `dictUpdateAdd`, `lookupD` and
`sum_dicts` interact.  All dicts produced by the constructor have pairwise
distinct keys, which is what makes the merge well behaved. -/

theorem lookupD_cons (k0 : String) (v0 : Nat) (t : List (String × Nat)) (k : String) :
    lookupD ((k0, v0) :: t) k = if k = k0 then v0 else lookupD t k := by
  by_cases h : k = k0
  · simp [lookupD, List.lookup, h]
  · have hb : (k == k0) = false := beq_eq_false_iff_ne.mpr h
    simp [lookupD, List.lookup, hb, h]

theorem dictUpdateAdd_cons (k0 : String) (v0 : Nat) (t : List (String × Nat))
    (k : String) (v : Nat) :
    dictUpdateAdd ((k0, v0) :: t) k v
      = (if k0 == k then (k0, v0 + v) else (k0, v0)) :: dictUpdateAdd t k v := by
  simp only [dictUpdateAdd, List.map_cons]

theorem keys_dictUpdateAdd (d : List (String × Nat)) (k : String) (v : Nat) :
    keys (dictUpdateAdd d k v) = keys d := by
  unfold keys dictUpdateAdd
  rw [List.map_map]
  exact List.map_congr_left (fun p _ => by by_cases h : p.1 = k <;> simp [h])

theorem lookupD_dictUpdateAdd_ne (d : List (String × Nat)) (k k' : String) (v : Nat)
    (h : k' ≠ k) : lookupD (dictUpdateAdd d k v) k' = lookupD d k' := by
  induction d with
  | nil => rfl
  | cons p t ih =>
    obtain ⟨k0, v0⟩ := p
    rw [dictUpdateAdd_cons]
    by_cases h0 : k0 == k
    · have hne : k' ≠ k0 := fun he => h (he.trans (eq_of_beq h0))
      rw [if_pos h0, lookupD_cons, lookupD_cons, if_neg hne, if_neg hne, ih]
    · rw [if_neg h0, lookupD_cons, lookupD_cons]
      by_cases hk : k' = k0
      · rw [if_pos hk, if_pos hk]
      · rw [if_neg hk, if_neg hk, ih]

theorem lookupD_dictUpdateAdd_eq (d : List (String × Nat)) (k : String) (v : Nat)
    (hk : k ∈ keys d) : lookupD (dictUpdateAdd d k v) k = lookupD d k + v := by
  induction d with
  | nil => simp [keys] at hk
  | cons p t ih =>
    obtain ⟨k0, v0⟩ := p
    rw [dictUpdateAdd_cons]
    by_cases h0 : k0 == k
    · have he : k = k0 := (eq_of_beq h0).symm
      rw [if_pos h0, lookupD_cons, lookupD_cons, if_pos he, if_pos he]
    · have hne : k ≠ k0 := fun he => h0 (by simp [he])
      have hkt : k ∈ keys t := by
        unfold keys at hk
        rw [List.map_cons, List.mem_cons] at hk
        exact hk.resolve_left hne
      rw [if_neg h0, lookupD_cons, lookupD_cons, if_neg hne, if_neg hne, ih hkt]

theorem keys_foldl_update (f : Nat → Nat) (a : List Nat) (d : List (String × Nat)) :
    keys (a.foldl (fun d n => dictUpdateAdd d (atKey n) (f n)) d) = keys d := by
  induction a generalizing d with
  | nil => rfl
  | cons m rest ih => rw [List.foldl_cons, ih, keys_dictUpdateAdd]

theorem lookupD_foldl_update_notmem (f : Nat → Nat) (a : List Nat) (d : List (String × Nat))
    (k : String) (h : ∀ m ∈ a, atKey m ≠ k) :
    lookupD (a.foldl (fun d n => dictUpdateAdd d (atKey n) (f n)) d) k = lookupD d k := by
  induction a generalizing d with
  | nil => rfl
  | cons m rest ih =>
    rw [List.foldl_cons, ih _ (fun x hx => h x (List.mem_cons_of_mem _ hx)),
      lookupD_dictUpdateAdd_ne _ _ _ _ (fun he => h m (List.mem_cons_self _ _) he.symm)]

theorem lookupD_foldl_update_mem (f : Nat → Nat) (a : List Nat) (d : List (String × Nat))
    (n : Nat) (hn : n ∈ a) (hnd : (a.map atKey).Nodup) (hk : atKey n ∈ keys d) :
    lookupD (a.foldl (fun d m => dictUpdateAdd d (atKey m) (f m)) d) (atKey n)
      = lookupD d (atKey n) + f n := by
  induction a generalizing d with
  | nil => cases hn
  | cons m rest ih =>
    rw [List.map_cons, List.nodup_cons] at hnd
    rw [List.foldl_cons]
    by_cases hmn : atKey n = atKey m
    · have hnm : n = m := by
        rcases List.mem_cons.mp hn with h1 | h1
        · exact h1
        · exact absurd (hmn ▸ List.mem_map_of_mem atKey h1) hnd.1
      subst hnm
      rw [lookupD_foldl_update_notmem _ _ _ _
          (fun x hx he => hnd.1 (by rw [← he]; exact List.mem_map_of_mem atKey hx)),
        lookupD_dictUpdateAdd_eq _ _ _ hk]
    · have hrest : n ∈ rest := by
        rcases List.mem_cons.mp hn with h1 | h1
        · exact absurd (h1 ▸ rfl) hmn
        · exact h1
      rw [ih _ hrest hnd.2 ((keys_dictUpdateAdd _ _ _).symm ▸ hk),
        lookupD_dictUpdateAdd_ne _ _ _ _ hmn]

theorem mem_keys_dictInit_aux (ks : List String) (acc : List (String × Nat)) (s : String) :
    (s ∈ keys (ks.foldl
        (fun d k => if d.any (fun p => p.1 == k) then d else d ++ [(k, 0)]) acc))
      ↔ s ∈ keys acc ∨ s ∈ ks := by
  induction ks generalizing acc with
  | nil => simp
  | cons k rest ih =>
    rw [List.foldl_cons]
    by_cases h : acc.any (fun p => p.1 == k)
    · rw [if_pos h, ih]
      have hk : k ∈ keys acc := by
        rw [List.any_eq_true] at h
        obtain ⟨p, hp, he⟩ := h
        exact eq_of_beq he ▸ List.mem_map_of_mem Prod.fst hp
      constructor
      · rintro (h1 | h1)
        · exact Or.inl h1
        · exact Or.inr (List.mem_cons_of_mem _ h1)
      · rintro (h1 | h1)
        · exact Or.inl h1
        · rcases List.mem_cons.mp h1 with h2 | h2
          · exact Or.inl (h2 ▸ hk)
          · exact Or.inr h2
    · rw [if_neg h, ih]
      unfold keys
      rw [List.map_append, List.mem_append]
      simp only [List.map_cons, List.map_nil, List.mem_singleton, List.mem_cons]
      tauto

theorem mem_keys_dictInit (ks : List String) (s : String) :
    s ∈ keys (dictInit ks) ↔ s ∈ ks := by
  rw [dictInit, mem_keys_dictInit_aux]
  simp [keys]

theorem nodup_keys_dictInit_aux (ks : List String) (acc : List (String × Nat))
    (h : (keys acc).Nodup) :
    (keys (ks.foldl
      (fun d k => if d.any (fun p => p.1 == k) then d else d ++ [(k, 0)]) acc)).Nodup := by
  induction ks generalizing acc with
  | nil => exact h
  | cons k rest ih =>
    rw [List.foldl_cons]
    by_cases hany : acc.any (fun p => p.1 == k)
    · rw [if_pos hany]
      exact ih _ h
    · rw [if_neg hany]
      apply ih
      have hk : k ∉ keys acc := by
        intro hmem
        apply hany
        rw [List.any_eq_true]
        obtain ⟨p, hp, he⟩ := List.mem_map.mp hmem
        exact ⟨p, hp, by simp [he]⟩
      unfold keys
      rw [List.map_append]
      simp only [List.map_cons, List.map_nil]
      rw [List.nodup_append]
      refine ⟨h, List.nodup_singleton k, fun x hx hxk => ?_⟩
      exact hk (List.mem_singleton.mp hxk ▸ hx)

theorem nodup_keys_dictInit (ks : List String) : (keys (dictInit ks)).Nodup :=
  nodup_keys_dictInit_aux ks [] (by simp [keys])

theorem vals_dictInit_aux (ks : List String) (acc : List (String × Nat))
    (h : ∀ p ∈ acc, p.2 = 0) :
    ∀ p ∈ ks.foldl (fun d k => if d.any (fun q => q.1 == k) then d else d ++ [(k, 0)]) acc,
      p.2 = 0 := by
  induction ks generalizing acc with
  | nil => exact h
  | cons k rest ih =>
    rw [List.foldl_cons]
    by_cases hany : acc.any (fun q => q.1 == k)
    · rw [if_pos hany]
      exact ih _ h
    · rw [if_neg hany]
      apply ih
      intro p hp
      rcases List.mem_append.mp hp with h1 | h1
      · exact h p h1
      · rw [List.mem_singleton.mp h1]

theorem vals_dictInit (ks : List String) : ∀ p ∈ dictInit ks, p.2 = 0 :=
  vals_dictInit_aux ks [] (by intro p hp; cases hp)

theorem lookupD_eq_zero (d : List (String × Nat)) (h : ∀ p ∈ d, p.2 = 0) (s : String) :
    lookupD d s = 0 := by
  induction d with
  | nil => rfl
  | cons p t ih =>
    obtain ⟨k0, v0⟩ := p
    rw [lookupD_cons]
    by_cases hs : s = k0
    · rw [if_pos hs]
      exact h (k0, v0) (List.mem_cons_self _ _)
    · rw [if_neg hs]
      exact ih (fun q hq => h q (List.mem_cons_of_mem _ hq))

theorem lookup_isSome_of_mem_keys (d : List (String × Nat)) (k : String)
    (h : k ∈ keys d) : (List.lookup k d).isSome := by
  induction d with
  | nil => cases h
  | cons p t ih =>
    obtain ⟨k0, v0⟩ := p
    by_cases hk : k = k0
    · simp [List.lookup, hk]
    · have hb : (k == k0) = false := beq_eq_false_iff_ne.mpr hk
      have hkt : k ∈ keys t := by
        unfold keys at h
        rw [List.map_cons, List.mem_cons] at h
        exact h.resolve_left hk
      simpa [List.lookup, hb] using ih hkt

theorem filter_lookup_none_eq_nil (d1 d2 : List (String × Nat))
    (h : ∀ s ∈ keys d2, s ∈ keys d1) :
    d2.filter (fun p => (List.lookup p.1 d1).isNone) = [] := by
  rw [List.filter_eq_nil_iff]
  intro p hp hnone
  have hsome := lookup_isSome_of_mem_keys d1 p.1 (h p.1 (List.mem_map_of_mem Prod.fst hp))
  rw [Option.isNone_iff_eq_none] at hnone
  rw [hnone] at hsome
  cases hsome

theorem sum_map_eq_zipWith (d1 d2 : List (String × Nat))
    (hk : keys d1 = keys d2) (hnd : (keys d1).Nodup) :
    d1.map (fun p => (p.1, p.2 + lookupD d2 p.1))
      = List.zipWith (fun p q => (p.1, p.2 + q.2)) d1 d2 := by
  induction d1 generalizing d2 with
  | nil => simp
  | cons p t1 ih =>
    obtain ⟨k, v1⟩ := p
    cases d2 with
    | nil => simp [keys] at hk
    | cons q t2 =>
      obtain ⟨k2, v2⟩ := q
      unfold keys at hk hnd
      rw [List.map_cons, List.map_cons, List.cons.injEq] at hk
      rw [List.map_cons, List.nodup_cons] at hnd
      obtain ⟨hk1, hkt⟩ := hk
      dsimp at hk1
      rw [List.map_cons, List.zipWith_cons_cons]
      have hhead : lookupD ((k2, v2) :: t2) (k, v1).1 = v2 := by
        rw [lookupD_cons, if_pos hk1]
      rw [hhead]
      have htail : t1.map (fun p => (p.1, p.2 + lookupD ((k2, v2) :: t2) p.1))
          = t1.map (fun p => (p.1, p.2 + lookupD t2 p.1)) := by
        apply List.map_congr_left
        intro p hp
        have hne : p.1 ≠ k2 := by
          intro he
          apply hnd.1
          have hmem : p.1 ∈ List.map Prod.fst t1 := List.mem_map_of_mem Prod.fst hp
          rw [he, ← hk1] at hmem
          exact hmem
        rw [lookupD_cons, if_neg hne]
      rw [htail, ih t2 hkt hnd.2]

theorem sum_dicts_eq_zipWith (d1 d2 : List (String × Nat))
    (hk : keys d1 = keys d2) (hnd : (keys d1).Nodup) :
    sum_dicts d1 d2 = List.zipWith (fun p q => (p.1, p.2 + q.2)) d1 d2 := by
  unfold sum_dicts
  rw [filter_lookup_none_eq_nil d1 d2 (fun s hs => hk ▸ hs), List.append_nil,
    sum_map_eq_zipWith d1 d2 hk hnd]

theorem keys_zipWith_sum (d1 d2 : List (String × Nat)) (hk : keys d1 = keys d2) :
    keys (List.zipWith (fun p q => (p.1, p.2 + q.2)) d1 d2) = keys d1 := by
  induction d1 generalizing d2 with
  | nil => simp [keys]
  | cons p t1 ih =>
    cases d2 with
    | nil => simp [keys] at hk
    | cons q t2 =>
      unfold keys at hk
      rw [List.map_cons, List.map_cons, List.cons.injEq] at hk
      rw [List.zipWith_cons_cons]
      unfold keys
      rw [List.map_cons, List.map_cons]
      have htl : List.map Prod.fst (List.zipWith (fun p q => (p.1, p.2 + q.2)) t1 t2)
          = List.map Prod.fst t1 := ih t2 hk.2
      rw [htl]

theorem lookupD_zipWith_sum (d1 d2 : List (String × Nat)) (hk : keys d1 = keys d2)
    (k : String) :
    lookupD (List.zipWith (fun p q => (p.1, p.2 + q.2)) d1 d2) k
      = lookupD d1 k + lookupD d2 k := by
  induction d1 generalizing d2 with
  | nil =>
    cases d2 with
    | nil => rfl
    | cons q t2 => simp [keys] at hk
  | cons p t1 ih =>
    cases d2 with
    | nil => simp [keys] at hk
    | cons q t2 =>
      obtain ⟨k1, v1⟩ := p
      obtain ⟨k2, v2⟩ := q
      unfold keys at hk
      rw [List.map_cons, List.map_cons, List.cons.injEq] at hk
      obtain ⟨hk1, hkt⟩ := hk
      dsimp at hk1
      subst hk1
      rw [List.zipWith_cons_cons, lookupD_cons, lookupD_cons, lookupD_cons]
      by_cases h : k = k1
      · rw [if_pos h, if_pos h, if_pos h]
      · rw [if_neg h, if_neg h, if_neg h, ih t2 hkt]

theorem zipWith_sum_assoc (d1 d2 d3 : List (String × Nat)) :
    List.zipWith (fun p q => (p.1, p.2 + q.2))
        (List.zipWith (fun p q => (p.1, p.2 + q.2)) d1 d2) d3
      = List.zipWith (fun p q => (p.1, p.2 + q.2)) d1
        (List.zipWith (fun p q => (p.1, p.2 + q.2)) d2 d3) := by
  induction d1 generalizing d2 d3 with
  | nil => simp
  | cons p t1 ih =>
    cases d2 with
    | nil => simp
    | cons q t2 =>
      cases d3 with
      | nil => simp
      | cons r t3 =>
        rw [List.zipWith_cons_cons, List.zipWith_cons_cons, List.zipWith_cons_cons,
          List.zipWith_cons_cons, ih t2 t3, Nat.add_assoc]

theorem zipWith_sum_comm (d1 d2 : List (String × Nat)) (hk : keys d1 = keys d2) :
    List.zipWith (fun p q => (p.1, p.2 + q.2)) d1 d2
      = List.zipWith (fun p q => (p.1, p.2 + q.2)) d2 d1 := by
  induction d1 generalizing d2 with
  | nil =>
    cases d2 with
    | nil => rfl
    | cons q t2 => simp [keys] at hk
  | cons p t1 ih =>
    cases d2 with
    | nil => simp [keys] at hk
    | cons q t2 =>
      obtain ⟨k1, v1⟩ := p
      obtain ⟨k2, v2⟩ := q
      unfold keys at hk
      rw [List.map_cons, List.map_cons, List.cons.injEq] at hk
      obtain ⟨hk1, hkt⟩ := hk
      dsimp at hk1
      subst hk1
      rw [List.zipWith_cons_cons, List.zipWith_cons_cons, ih t2 hkt, Nat.add_comm]

theorem keys_hitsCountCompute (preds : List (List Int)) (targets : List Nat) (a : List Nat) :
    keys (hitsCountCompute preds targets a) = keys (dictInit (a.map atKey)) := by
  unfold hitsCountCompute
  exact keys_foldl_update _ a _

theorem lookupD_hitsCountCompute (preds : List (List Int)) (targets : List Nat)
    (a : List Nat) (n : Nat) (hn : n ∈ a) (hnd : (a.map atKey).Nodup) :
    lookupD (hitsCountCompute preds targets a) (atKey n) = hitSum preds targets n := by
  unfold hitsCountCompute
  rw [lookupD_foldl_update_mem _ a _ n hn hnd
      ((mem_keys_dictInit _ _).mpr (List.mem_map_of_mem atKey hn)),
    lookupD_eq_zero _ (vals_dictInit _) _, Nat.zero_add]

theorem dictUpdateAdd_zero (d : List (String × Nat)) (k : String) :
    dictUpdateAdd d k 0 = d := by
  induction d with
  | nil => rfl
  | cons p t ih =>
    obtain ⟨k0, v0⟩ := p
    rw [dictUpdateAdd_cons, ih]
    by_cases h : k0 == k <;> simp [h]

theorem foldl_update_empty (l : List Nat) (d : List (String × Nat)) :
    l.foldl (fun d n => dictUpdateAdd d (atKey n) (hitSum [] [] n)) d = d := by
  induction l generalizing d with
  | nil => rfl
  | cons m rest ih =>
    rw [List.foldl_cons, show hitSum [] [] m = 0 from rfl, dictUpdateAdd_zero, ih]

theorem hitsCountCompute_empty (a : List Nat) :
    hitsCountCompute [] [] a = dictInit (a.map atKey) := by
  unfold hitsCountCompute
  exact foldl_update_empty a _

theorem sum_dicts_zero_right (d z : List (String × Nat)) (hz : ∀ p ∈ z, p.2 = 0)
    (hsub : ∀ s ∈ keys z, s ∈ keys d) : sum_dicts d z = d := by
  unfold sum_dicts
  rw [filter_lookup_none_eq_nil d z hsub, List.append_nil]
  have hmap : d.map (fun p => (p.1, p.2 + lookupD z p.1)) = d.map id :=
    List.map_congr_left (fun p _ => by rw [lookupD_eq_zero z hz, Nat.add_zero]; rfl)
  rw [hmap, List.map_id]

theorem idsTopFlat_subset (preds : List (List Int)) (m n : Nat) (h : m ≤ n) :
    ∀ x, x ∈ idsTopFlat preds m → x ∈ idsTopFlat preds n := by
  intro x hx
  rw [idsTopFlat, List.mem_flatten] at hx ⊢
  obtain ⟨l, hl, hxl⟩ := hx
  rw [List.mem_map] at hl
  obtain ⟨r, hr, hrl⟩ := hl
  refine ⟨r.take n, List.mem_map.mpr ⟨r, hr, rfl⟩, ?_⟩
  have htk : (r.take n).take m = r.take m := by
    rw [List.take_take, Nat.min_eq_left h]
  exact List.take_subset m (r.take n) (htk.symm ▸ hrl ▸ hxl)

theorem hitSum_mono (preds : List (List Int)) (targets : List Nat) (m n : Nat)
    (h : m ≤ n) : hitSum preds targets m ≤ hitSum preds targets n := by
  unfold hitSum in1d
  rw [List.countP_map, List.countP_map]
  apply List.countP_mono_left
  intro x _ hx
  simp only [Function.comp, List.contains, List.elem_eq_mem, decide_eq_true_eq] at hx ⊢
  exact idsTopFlat_subset preds m n h x hx

/-- C4.  Merge is associative and commutative on values for accumulators built
with the same cutoff list: both bracketings of a three-way merge and both
orders of a two-way merge return the same `forward()` value.  (The merge itself
is the spec-modelled `sum_dicts`.) -/
theorem c4_add_assoc_comm (a : List Nat) (pA pB pC : List (List Int))
    (tA tB tC : List Nat) (nA nB nC : Option String) :
    (((HitsCountPatch.init pA tA a nA).add (HitsCountPatch.init pB tB a nB)).add
        (HitsCountPatch.init pC tC a nC)).forward
      = ((HitsCountPatch.init pA tA a nA).add
        ((HitsCountPatch.init pB tB a nB).add (HitsCountPatch.init pC tC a nC))).forward ∧
    ((HitsCountPatch.init pA tA a nA).add (HitsCountPatch.init pB tB a nB)).forward
      = ((HitsCountPatch.init pB tB a nB).add (HitsCountPatch.init pA tA a nA)).forward := by
  have hA := keys_hitsCountCompute pA tA a
  have hB := keys_hitsCountCompute pB tB a
  have hC := keys_hitsCountCompute pC tC a
  have hAB : keys (hitsCountCompute pA tA a) = keys (hitsCountCompute pB tB a) :=
    hA.trans hB.symm
  have hBC : keys (hitsCountCompute pB tB a) = keys (hitsCountCompute pC tC a) :=
    hB.trans hC.symm
  have hndA : (keys (hitsCountCompute pA tA a)).Nodup := by
    rw [hA]; exact nodup_keys_dictInit _
  have hndB : (keys (hitsCountCompute pB tB a)).Nodup := by
    rw [hB]; exact nodup_keys_dictInit _
  constructor
  · show sum_dicts (sum_dicts (hitsCountCompute pA tA a) (hitsCountCompute pB tB a))
        (hitsCountCompute pC tC a)
      = sum_dicts (hitsCountCompute pA tA a)
        (sum_dicts (hitsCountCompute pB tB a) (hitsCountCompute pC tC a))
    rw [sum_dicts_eq_zipWith _ _ hAB hndA,
      sum_dicts_eq_zipWith _ _ hBC hndB,
      sum_dicts_eq_zipWith _ _ (by rw [keys_zipWith_sum _ _ hAB]; exact hA.trans hC.symm)
        (by rw [keys_zipWith_sum _ _ hAB]; exact hndA),
      sum_dicts_eq_zipWith _ _ (by rw [keys_zipWith_sum _ _ hBC]; exact hAB) hndA,
      zipWith_sum_assoc]
  · show sum_dicts (hitsCountCompute pA tA a) (hitsCountCompute pB tB a)
      = sum_dicts (hitsCountCompute pB tB a) (hitsCountCompute pA tA a)
    rw [sum_dicts_eq_zipWith _ _ hAB hndA, sum_dicts_eq_zipWith _ _ hAB.symm hndB,
      zipWith_sum_comm _ _ hAB]

/-- C5.  Merging any accumulator with one built from zero observed items (empty
predictions and targets, same cutoff list — all its counters are 0) is a no-op:
the merged `forward()` value is the first operand's value unchanged. -/
theorem c5_merge_zero_noop (a : List Nat) (preds : List (List Int)) (targets : List Nat)
    (n1 n2 : Option String) :
    ((HitsCountPatch.init preds targets a n1).add (HitsCountPatch.init [] [] a n2)).forward
      = (HitsCountPatch.init preds targets a n1).forward := by
  show sum_dicts (hitsCountCompute preds targets a) (hitsCountCompute [] [] a)
    = hitsCountCompute preds targets a
  rw [hitsCountCompute_empty]
  apply sum_dicts_zero_right
  · exact vals_dictInit _
  · intro s hs
    rw [keys_hitsCountCompute]
    exact hs

/-- C6 (amended).  Construction performs no input validation at all: for every
input, mismatched batch sizes included, `__init__` completes without raising and
yields the usual accumulator whose keys are exactly the cutoff labels. -/
theorem c6_construction_never_fails (preds : List (List Int)) (targets : List Nat)
    (a : List Nat) (nm : Option String) :
    HitsCountPatch.initE preds targets a nm
        = Except.ok (HitsCountPatch.init preds targets a nm) ∧
    (∀ s, s ∈ keys ((HitsCountPatch.init preds targets a nm).hits_count)
      ↔ ∃ k ∈ a, atKey k = s) := by
  refine ⟨rfl, fun s => ?_⟩
  show s ∈ keys (hitsCountCompute preds targets a) ↔ _
  rw [keys_hitsCountCompute, mem_keys_dictInit, List.mem_map]

/-- C10 (counterexample).  The invariant does not hold for every constructed
accumulator: with the duplicated cutoff tuple at = (1, 1, 2) the dict
comprehension collapses the keys to "@1", "@2" but the loop bumps "@1" once per
occurrence of the cutoff 1, so on a one-sample batch whose label is the top
prediction the counter at "@1" is 2 while the counter at "@2" is 1 — the
monotonicity part of the claim fails at cutoffs 1 ≤ 2, both members of at. -/
theorem c10_counterexample :
    (HitsCountPatch.init [[1, 0]] [0] [1, 1, 2] none).hits_count
        = [("@1", 2), ("@2", 1)] ∧
    (1 : Nat) ∈ [1, 1, 2] ∧ (2 : Nat) ∈ [1, 1, 2] ∧ (1 : Nat) ≤ 2 ∧
    ¬ lookupD ((HitsCountPatch.init [[1, 0]] [0] [1, 1, 2] none).hits_count) (atKey 1)
        ≤ lookupD ((HitsCountPatch.init [[1, 0]] [0] [1, 1, 2] none).hits_count) (atKey 2) := by
  decide

/-- C10 (amended).  Invariant of the accumulator for a cutoff list whose key
labels are pairwise distinct (a genuine cutoff set, excluding the duplicated
cutoffs of the counterexample): the key set of `hits_count` is exactly the
labels of the cutoffs in `at`, each counter is a natural number
(non-negativity is carried by the type), and counters are monotone in the
cutoff; construction establishes all of this and merging with a same-cutoff
peer preserves it. -/
theorem c10_invariant (a : List Nat) (preds p2 : List (List Int)) (targets t2 : List Nat)
    (nm nm2 : Option String) (hnd : (a.map atKey).Nodup) :
    (∀ s, s ∈ keys ((HitsCountPatch.init preds targets a nm).hits_count)
        ↔ ∃ k ∈ a, atKey k = s) ∧
    (∀ m n, m ∈ a → n ∈ a → m ≤ n →
      lookupD ((HitsCountPatch.init preds targets a nm).hits_count) (atKey m)
        ≤ lookupD ((HitsCountPatch.init preds targets a nm).hits_count) (atKey n)) ∧
    (∀ s, s ∈ keys (((HitsCountPatch.init preds targets a nm).add
          (HitsCountPatch.init p2 t2 a nm2)).hits_count)
        ↔ ∃ k ∈ a, atKey k = s) ∧
    (∀ m n, m ∈ a → n ∈ a → m ≤ n →
      lookupD (((HitsCountPatch.init preds targets a nm).add
          (HitsCountPatch.init p2 t2 a nm2)).hits_count) (atKey m)
        ≤ lookupD (((HitsCountPatch.init preds targets a nm).add
          (HitsCountPatch.init p2 t2 a nm2)).hits_count) (atKey n)) := by
  have hkA := keys_hitsCountCompute preds targets a
  have hkB := keys_hitsCountCompute p2 t2 a
  have hAB : keys (hitsCountCompute preds targets a) = keys (hitsCountCompute p2 t2 a) :=
    hkA.trans hkB.symm
  have hndA : (keys (hitsCountCompute preds targets a)).Nodup := by
    rw [hkA]; exact nodup_keys_dictInit _
  have hsum : sum_dicts (hitsCountCompute preds targets a) (hitsCountCompute p2 t2 a)
      = List.zipWith (fun p q => (p.1, p.2 + q.2)) (hitsCountCompute preds targets a)
        (hitsCountCompute p2 t2 a) :=
    sum_dicts_eq_zipWith _ _ hAB hndA
  refine ⟨fun s => ?_, fun m n hm hn hmn => ?_, fun s => ?_, fun m n hm hn hmn => ?_⟩
  · show s ∈ keys (hitsCountCompute preds targets a) ↔ _
    rw [keys_hitsCountCompute, mem_keys_dictInit, List.mem_map]
  · show lookupD (hitsCountCompute preds targets a) (atKey m)
      ≤ lookupD (hitsCountCompute preds targets a) (atKey n)
    rw [lookupD_hitsCountCompute _ _ _ _ hm hnd, lookupD_hitsCountCompute _ _ _ _ hn hnd]
    exact hitSum_mono preds targets m n hmn
  · show s ∈ keys (sum_dicts (hitsCountCompute preds targets a)
      (hitsCountCompute p2 t2 a)) ↔ _
    rw [hsum, keys_zipWith_sum _ _ hAB, keys_hitsCountCompute, mem_keys_dictInit,
      List.mem_map]
  · show lookupD (sum_dicts (hitsCountCompute preds targets a)
        (hitsCountCompute p2 t2 a)) (atKey m)
      ≤ lookupD (sum_dicts (hitsCountCompute preds targets a)
        (hitsCountCompute p2 t2 a)) (atKey n)
    rw [hsum, lookupD_zipWith_sum _ _ hAB, lookupD_zipWith_sum _ _ hAB,
      lookupD_hitsCountCompute _ _ _ _ hm hnd, lookupD_hitsCountCompute _ _ _ _ hn hnd,
      lookupD_hitsCountCompute _ _ _ _ hm hnd, lookupD_hitsCountCompute _ _ _ _ hn hnd]
    exact Nat.add_le_add (hitSum_mono preds targets m n hmn) (hitSum_mono p2 t2 m n hmn)

/-- C10 (witness): the invariant instantiated at the concrete four-sample batch
with cutoffs (1, 2), whose key labels are distinct by computation. -/
theorem c10_invariant_witness :
    (∀ s, s ∈ keys ((HitsCountPatch.init preds4 targets4 [1, 2] none).hits_count)
        ↔ ∃ k ∈ [1, 2], atKey k = s) ∧
    (∀ m n, m ∈ [1, 2] → n ∈ [1, 2] → m ≤ n →
      lookupD ((HitsCountPatch.init preds4 targets4 [1, 2] none).hits_count) (atKey m)
        ≤ lookupD ((HitsCountPatch.init preds4 targets4 [1, 2] none).hits_count) (atKey n)) ∧
    (∀ s, s ∈ keys (((HitsCountPatch.init preds4 targets4 [1, 2] none).add
          (HitsCountPatch.init [[0, 1]] [0] [1, 2] none)).hits_count)
        ↔ ∃ k ∈ [1, 2], atKey k = s) ∧
    (∀ m n, m ∈ [1, 2] → n ∈ [1, 2] → m ≤ n →
      lookupD (((HitsCountPatch.init preds4 targets4 [1, 2] none).add
          (HitsCountPatch.init [[0, 1]] [0] [1, 2] none)).hits_count) (atKey m)
        ≤ lookupD (((HitsCountPatch.init preds4 targets4 [1, 2] none).add
          (HitsCountPatch.init [[0, 1]] [0] [1, 2] none)).hits_count) (atKey n)) :=
  c10_invariant [1, 2] preds4 [[0, 1]] targets4 [0] none none (by decide)

end Loops
